import Mathlib

/-
Verification development for the aurum-db reactive key-value layer.

The source (src/src/aurum-db.ts) wraps an ordered key-value engine (leveldb)
into named partitions: keyed indices with per-key and whole-index observers,
ordered (array-like) collections whose length lives under the reserved
metadata key, and stubbed linked collections.  The embeddings below translate
the relevant methods; association lists stand for the engine's key-value
state, and cooperative async execution is modelled by explicit small-step
machines where a claim is about interleavings.
-/

deriving instance DecidableEq for Except

namespace KV

/-- Engine read of a key from an association-list store: first binding wins
(leveldb keys are unique; `kput` keeps them unique). -/
def kget {κ α : Type} [DecidableEq κ] : List (κ × α) → κ → Option α
  | [], _ => none
  | p :: rest, k => if p.1 = k then some p.2 else kget rest k

/-- Engine put: replace the binding in place, or append a new one. -/
def kput {κ α : Type} [DecidableEq κ] : List (κ × α) → κ → α → List (κ × α)
  | [], k, v => [(k, v)]
  | p :: rest, k, v => if p.1 = k then (k, v) :: rest else p :: kput rest k v

/-- Engine delete: remove every binding of the key. -/
def kdel {κ α : Type} [DecidableEq κ] : List (κ × α) → κ → List (κ × α)
  | [], _ => []
  | p :: rest, k => if p.1 = k then kdel rest k else p :: kdel rest k

end KV

/-- Models the source's `key.includes('!')` check on partition keys: the
character '!' is the subleveldown partition delimiter, and keys containing it
are metadata, not data. -/
def hasDelim (k : String) : Bool := k.data.contains '!'

namespace IndexObs

/-!
Machine for `AurumDBIndex.observeEntireIndex` (src/src/aurum-db.ts:256-286)
together with the live event handler `onKeyChange` (lines 237-250).

`observeEntireIndex` first registers the fresh `MapDataSource` in
`totalObservers` (so live put/del events update the view from the start) and
then walks a snapshot cursor over the keys present at call time.  For each
snapshot key that does not contain '!', it awaits `that.get(key)` (a read of
the *current* store, not of the snapshot) and then inserts the value into the
view.  A live put event sets the key in every whole-index view; a live del
event deletes it (`onKeyChange`, no '!' filter there).

The machine state carries the current store `db`, the observer's view, the
snapshot keys the scan has not yet consumed, and the in-flight engine read
(`pending`): the key whose `get` has been issued together with the value that
read will deliver.  `failed` records that the in-flight read came back
"not found": in the source that rejection is raised inside the scan callback,
so the scan stops and the observer promise never resolves with a view.
-/

/-- One atomic step of the cooperative execution: `sample` issues the engine
read for the next snapshot key (skipping '!' keys), `record` completes the
in-flight read and inserts the value into the view, `put`/`del` are live
mutations (engine write applied together with its change event, which the
already-registered observer receives via `onKeyChange`). -/
inductive Step (V : Type) where
  | sample : Step V
  | record : Step V
  | put (k : String) (v : V) : Step V
  | del (k : String) : Step V
  deriving DecidableEq

structure ObsState (V : Type) where
  db : List (String × V)
  view : List (String × V)
  remaining : List String
  pending : Option (String × Option V)
  failed : Bool
  deriving DecidableEq

def stepRun {V : Type} (s : ObsState V) : Step V → ObsState V
  | .put k v => { s with db := KV.kput s.db k v, view := KV.kput s.view k v }
  | .del k => { s with db := KV.kdel s.db k, view := KV.kdel s.view k }
  | .sample =>
    match s.pending, s.remaining with
    | none, k :: rest =>
      if hasDelim k then { s with remaining := rest }
      else { s with remaining := rest, pending := some (k, KV.kget s.db k) }
    | _, _ => s
  | .record =>
    match s.pending with
    | some (k, some v) => { s with view := KV.kput s.view k v, pending := none }
    | some (_, none) => { s with failed := true, pending := none }
    | none => s

def run {V : Type} (s : ObsState V) (tr : List (Step V)) : ObsState V :=
  tr.foldl stepRun s

/-- Scan step at the granularity at which the claim's "scan steps" are atomic:
the engine read and the view insertion happen back-to-back, with no mutation
event in between. -/
inductive AStep (V : Type) where
  | scan : AStep V
  | put (k : String) (v : V) : AStep V
  | del (k : String) : AStep V
  deriving DecidableEq

def astep {V : Type} (s : ObsState V) : AStep V → ObsState V
  | .scan => stepRun (stepRun s .sample) .record
  | .put k v => stepRun s (.put k v)
  | .del k => stepRun s (.del k)

def arun {V : Type} (s : ObsState V) (tr : List (AStep V)) : ObsState V :=
  tr.foldl astep s

/-- State at the moment `observeEntireIndex` is called: the observer is
already registered (its view is empty) and the snapshot cursor holds exactly
the keys present in the store. -/
def initObs {V : Type} (db0 : List (String × V)) : ObsState V :=
  { db := db0, view := [], remaining := db0.map Prod.fst,
    pending := none, failed := false }

/-- A trace whose live put events only touch data keys (no '!'). -/
def putsDataOnly {V : Type} (tr : List (Step V)) : Bool :=
  tr.all fun st =>
    match st with
    | .put k _ => !(hasDelim k)
    | _ => true

/-- Invariant tying the observer's view to the store during a scan whose
read/record pairs are atomic. -/
def scanInv {V : Type} (s : ObsState V) : Prop :=
  s.pending = none ∧
  (s.failed = false → ∀ k : String, hasDelim k = false →
    KV.kget s.view k = KV.kget s.db k ∨
      (k ∈ s.remaining ∧ KV.kget s.view k = none))

/-- Invariant: no '!' key is in the view, and any in-flight read is for a
data key. -/
def viewClean {V : Type} (s : ObsState V) : Prop :=
  (∀ k : String, hasDelim k = true → KV.kget s.view k = none) ∧
  (∀ k p, s.pending = some (k, p) → hasDelim k = false)

end IndexObs

namespace OrderedSeq

/-!
Sequential semantics of `AurumDBOrderedCollection` (src/src/aurum-db.ts:353-581).

The collection stores its length as a JSON number under the reserved key
'!!meta!!' and its elements under the decimal string of their integer index
(levelup stringifies numeric keys, and `(-1).toString() = "-1"`).  Those key
strings are pairwise distinct and distinct from '!!meta!!', so keys are
embedded as an inductive type.  A stored value is either a number (the length
record) or an element.
-/

inductive OKey where
  | meta : OKey
  | slot (i : Int) : OKey
  deriving DecidableEq

abbrev OStore (V : Type) := List (OKey × (Int ⊕ V))

inductive OCErr where
  /-- levelup "Key not found in database" rejection. -/
  | notFound : OCErr
  /-- `throw new Error('cannot read outside of bounds of array')`. -/
  | readOOB : OCErr
  /-- `throw new Error('cannot write outside of bounds of array')` (also the
  message `slice` throws). -/
  | writeOOB : OCErr
  /-- Metadata record does not hold a number (unreachable from the API). -/
  | badMeta : OCErr
  deriving DecidableEq

/-- `length()`: read the metadata record. -/
def length {V : Type} (st : OStore V) : Except OCErr Int :=
  match KV.kget st OKey.meta with
  | some (Sum.inl n) => Except.ok n
  | some (Sum.inr _) => Except.error OCErr.badMeta
  | none => Except.error OCErr.notFound

/-- `get(index)`: bounds check is `if (index > len) throw`, then an engine
read of the slot key. -/
def get {V : Type} (st : OStore V) (index : Int) : Except OCErr V :=
  match length st with
  | Except.error e => Except.error e
  | Except.ok len =>
    if index > len then Except.error OCErr.readOOB
    else
      match KV.kget st (OKey.slot index) with
      | some (Sum.inr v) => Except.ok v
      | some (Sum.inl _) => Except.error OCErr.badMeta
      | none => Except.error OCErr.notFound

/-- `set(index, item)`: same `index > len` check, then a single put of the
slot key (the length record is not touched). -/
def set {V : Type} (st : OStore V) (index : Int) (item : V) :
    Except OCErr (OStore V) :=
  match length st with
  | Except.error e => Except.error e
  | Except.ok len =>
    if index > len then Except.error OCErr.writeOOB
    else Except.ok (KV.kput st (OKey.slot index) (Sum.inr item))

/-- Slots `base, base+1, ...` receiving the pushed items, in batch order. -/
def putSlots {V : Type} (st : OStore V) (base : Int) : List V → OStore V
  | [] => st
  | v :: rest => putSlots (KV.kput st (OKey.slot base) (Sum.inr v)) (base + 1) rest

/-- `push(...items)`: read the length, then one atomic batch writing every
new slot plus the updated length record. -/
def push {V : Type} (st : OStore V) (items : List V) : Except OCErr (OStore V) :=
  match length st with
  | Except.error e => Except.error e
  | Except.ok len =>
    Except.ok (KV.kput (putSlots st len items) OKey.meta
      (Sum.inl (len + items.length)))

/-- `pop()`: read the length, read slot `len - 1`, then one atomic batch
writing length `len - 1` and deleting slot `len - 1`, resolving to the read
value.  On an empty collection the engine read of slot `-1` rejects with
NotFound; in the source that rejection happens inside the `new Promise`
executor, is never caught, and neither the returned promise nor the lock
chain ever settles (see the `OrderedConc` machine for that behaviour). -/
def pop {V : Type} (st : OStore V) : Except OCErr (V × OStore V) :=
  match length st with
  | Except.error e => Except.error e
  | Except.ok len =>
    match KV.kget st (OKey.slot (len - 1)) with
    | some (Sum.inr v) =>
      Except.ok (v, KV.kput (KV.kdel st (OKey.slot (len - 1))) OKey.meta
        (Sum.inl (len - 1)))
    | some (Sum.inl _) => Except.error OCErr.badMeta
    | none => Except.error OCErr.notFound

/-- The read loop shared by `slice` and `toArray`: engine reads of slots
`base, base+1, ...` (`n` of them); a missing slot rejects the whole loop. -/
def readRange {V : Type} (st : OStore V) : Int → Nat → Except OCErr (List V)
  | _, 0 => Except.ok []
  | base, n + 1 =>
    match KV.kget st (OKey.slot base) with
    | some (Sum.inr v) =>
      match readRange st (base + 1) n with
      | Except.ok rest => Except.ok (v :: rest)
      | Except.error e => Except.error e
    | some (Sum.inl _) => Except.error OCErr.badMeta
    | none => Except.error OCErr.notFound

/-- `slice(startIndex, endIndex)`: the source bound check
`startIndex > len || startIndex < 0 || endIndex > len || endIndex < 0`,
then reads of slots `startIndex ≤ i < endIndex`. -/
def slice {V : Type} (st : OStore V) (startIndex endIndex : Int) :
    Except OCErr (List V) :=
  match length st with
  | Except.error e => Except.error e
  | Except.ok len =>
    if startIndex > len ∨ startIndex < 0 ∨ endIndex > len ∨ endIndex < 0 then
      Except.error OCErr.writeOOB
    else readRange st startIndex (endIndex - startIndex).toNat

/-- `toArray()`: reads of slots `0 ≤ i < len`. -/
def toArray {V : Type} (st : OStore V) : Except OCErr (List V) :=
  match length st with
  | Except.error e => Except.error e
  | Except.ok len => readRange st 0 len.toNat

/-- Slot records `0 ↦ f 0, ..., L-1 ↦ f (L-1)` in key order. -/
def slotsUpto {V : Type} (f : Nat → V) : Nat → OStore V
  | 0 => []
  | n + 1 => slotsUpto f n ++ [(OKey.slot (n : Int), Sum.inr (f n))]

/-- A well-formed collection of length `L` with contents `f`: the length
record plus exactly the slots `0, ..., L-1` — the state reached by creating
the collection and pushing `f 0, ..., f (L-1)`. -/
def mkStore {V : Type} (L : Nat) (f : Nat → V) : OStore V :=
  (OKey.meta, Sum.inl (L : Int)) :: slotsUpto f L

end OrderedSeq

namespace OrderedConc

/-!
Cooperative-concurrency machine for unawaited `AurumDBOrderedCollection`
mutations (src/src/aurum-db.ts:474-557).

All modelled calls are issued synchronously, without awaiting, on a quiescent
collection (`this.lock` resolved), as in the source's own test of the
program-order guarantee.  Per JavaScript semantics:

* Each call runs until its first `await this.lock`, capturing the same
  initial lock; the suspended continuations then run in issue order
  (microtask FIFO).  In the machine this is the `phase 0` step of each task,
  which may run only once every earlier task has taken its `phase 0` step.
* `push`/`pop` continuations execute `this.lock = new Promise(executor)`.
  The executor starts `this.length()` synchronously, whose own
  `await this.lock` captures the lock value *before* the assignment — so the
  body chains on the promise installed by the previous `push`/`pop`.  In the
  machine, `phase 0` of a `push`/`pop` records `chainB := lock` and installs
  `lock := t + 1` (promise id of task `t`; promise `0` is the initial,
  already-resolved lock).
* `set` continuations call `this.length()`, whose `await this.lock` captures
  the lock current at that moment; `set` installs nothing.
* `clear` continuations go straight to `await this.db.clear()`: no further
  lock await at all, and its final `this.db.put(META_KEY, 0)` is issued
  without being awaited.
* Engine operations (gets, puts, batch writes, clear) complete in an order
  the engine does not pin down (reads run on a thread pool), so after its
  lock gate a task's engine steps interleave freely with other runnable
  tasks; each step is atomic.
* A levelup rejection inside a `new Promise` executor (pop's read of slot
  `len - 1` on an empty collection, or a length read after `clear` removed
  the metadata record) is swallowed: the task dies without resolving its
  promise (`dead := true`, promise never added to `resolvedList`).
-/

inductive OpKind (V : Type) where
  | push (items : List V) : OpKind V
  | pop : OpKind V
  | set (index : Int) (item : V) : OpKind V
  | clear : OpKind V
  deriving DecidableEq

structure Task (V : Type) where
  op : OpKind V
  phase : Nat
  chainB : Nat
  lenReg : Int
  popReg : Option V
  dead : Bool
  doneFlag : Bool
  deriving DecidableEq

structure CState (V : Type) where
  store : OrderedSeq.OStore V
  lock : Nat
  resolvedList : List Nat
  tasks : List (Task V)
  deriving DecidableEq

def mkTask {V : Type} (op : OpKind V) : Task V :=
  { op := op, phase := 0, chainB := 0, lenReg := 0, popReg := none,
    dead := false, doneFlag := false }

def initC {V : Type} (st0 : OrderedSeq.OStore V) (ops : List (OpKind V)) :
    CState V :=
  { store := st0, lock := 0, resolvedList := [0], tasks := ops.map mkTask }

/-- Read of the length record inside a task body. -/
def readMeta {V : Type} (st : OrderedSeq.OStore V) : Option Int :=
  match KV.kget st OrderedSeq.OKey.meta with
  | some (Sum.inl n) => some n
  | _ => none

/-- One scheduler step: run the next atomic segment of task `t`, if any is
runnable; otherwise do nothing. -/
def cstep {V : Type} (s : CState V) (t : Nat) : CState V :=
  match s.tasks.get? t with
  | none => s
  | some tk =>
    if tk.dead ∨ tk.doneFlag then s
    else
      match tk.phase with
      | 0 =>
        -- the continuation after the initial `await this.lock`, in issue order
        if (s.tasks.take t).all (fun u => u.phase != 0) then
          match tk.op with
          | OpKind.push _ =>
            { s with tasks := s.tasks.set t { tk with phase := 1, chainB := s.lock },
                     lock := t + 1 }
          | OpKind.pop =>
            { s with tasks := s.tasks.set t { tk with phase := 1, chainB := s.lock },
                     lock := t + 1 }
          | OpKind.set _ _ =>
            { s with tasks := s.tasks.set t { tk with phase := 1, chainB := s.lock } }
          | OpKind.clear =>
            { s with tasks := s.tasks.set t { tk with phase := 1, chainB := 0 } }
        else s
      | 1 =>
        -- body entry, gated on the captured lock promise
        if s.resolvedList.contains tk.chainB then
          match tk.op with
          | OpKind.push _ =>
            match readMeta s.store with
            | some n => { s with tasks := s.tasks.set t { tk with phase := 2, lenReg := n } }
            | none => { s with tasks := s.tasks.set t { tk with dead := true } }
          | OpKind.pop =>
            match readMeta s.store with
            | some n => { s with tasks := s.tasks.set t { tk with phase := 2, lenReg := n } }
            | none => { s with tasks := s.tasks.set t { tk with dead := true } }
          | OpKind.set index _ =>
            match readMeta s.store with
            | some n =>
              if index > n then
                { s with tasks := s.tasks.set t { tk with dead := true } }
              else
                { s with tasks := s.tasks.set t { tk with phase := 2, lenReg := n } }
            | none => { s with tasks := s.tasks.set t { tk with dead := true } }
          | OpKind.clear =>
            { s with store := [], tasks := s.tasks.set t { tk with phase := 2 } }
        else s
      | 2 =>
        match tk.op with
        | OpKind.push items =>
          -- the atomic batch write, then `resolve(undefined)`
          { s with store := KV.kput (OrderedSeq.putSlots s.store tk.lenReg items)
                     OrderedSeq.OKey.meta (Sum.inl (tk.lenReg + items.length)),
                   tasks := s.tasks.set t { tk with phase := 3, doneFlag := true },
                   resolvedList := s.resolvedList ++ [t + 1] }
        | OpKind.pop =>
          -- engine read of slot `len - 1`
          match KV.kget s.store (OrderedSeq.OKey.slot (tk.lenReg - 1)) with
          | some (Sum.inr v) =>
            { s with tasks := s.tasks.set t { tk with phase := 3, popReg := some v } }
          | _ => { s with tasks := s.tasks.set t { tk with dead := true } }
        | OpKind.set index item =>
          -- the single slot put
          { s with store := KV.kput s.store (OrderedSeq.OKey.slot index) (Sum.inr item),
                   tasks := s.tasks.set t { tk with phase := 3, doneFlag := true } }
        | OpKind.clear =>
          -- the fire-and-forget `this.db.put(META_KEY, 0)`
          { s with store := KV.kput s.store OrderedSeq.OKey.meta (Sum.inl 0),
                   tasks := s.tasks.set t { tk with phase := 3, doneFlag := true } }
      | 3 =>
        match tk.op with
        | OpKind.pop =>
          -- the atomic batch write, then `resolve(v)`
          { s with store := KV.kput (KV.kdel s.store (OrderedSeq.OKey.slot (tk.lenReg - 1)))
                     OrderedSeq.OKey.meta (Sum.inl (tk.lenReg - 1)),
                   tasks := s.tasks.set t { tk with phase := 4, doneFlag := true },
                   resolvedList := s.resolvedList ++ [t + 1] }
        | _ => s
      | _ => s

def crun {V : Type} (s : CState V) (sched : List Nat) : CState V :=
  sched.foldl cstep s

/-- Every issued call has completed (its promise settled). -/
def allDone {V : Type} (s : CState V) : Bool :=
  s.tasks.all fun tk => tk.doneFlag

end OrderedConc

namespace Reg

/-!
The observer registry / cancellation pattern shared by `observeKey`
(src/src/aurum-db.ts:288-308), `observeEntireIndex` (262-267) and the ordered
collection's `observeKey` (431-437): a fresh observer is appended to a
registry list, change events update exactly the registered observers in
list order, and the token's cleanup action looks the observer up with
`indexOf` and `splice`s it out when found (`if (index !== -1)`).

Observers are identified by id; `lastSeen` is each observer's current value
(`DataSource.update` overwrites it, `undefined` = absent).
-/

structure ObsReg (V : Type) where
  registry : List Nat
  lastSeen : List (Nat × Option V)
  deriving DecidableEq

/-- A change event for the observed key with new value `v` (`none` models a
delete): `onKeyChange` calls `ds.update(v)` on every registered observer. -/
def deliver {V : Type} (s : ObsReg V) (v : Option V) : ObsReg V :=
  { s with lastSeen := s.lastSeen.map fun p =>
      if p.1 ∈ s.registry then (p.1, v) else p }

def deliverAll {V : Type} (s : ObsReg V) (evs : List (Option V)) : ObsReg V :=
  evs.foldl deliver s

/-- The cancellation cleanup: `indexOf` + `splice(index, 1)` removes the
first occurrence when present and does nothing otherwise. -/
def cancelCleanup {V : Type} (s : ObsReg V) (i : Nat) : ObsReg V :=
  { s with registry := s.registry.erase i }

end Reg

namespace IndexOps

/-!
`AurumDBIndex` element operations on its own partition
(src/src/aurum-db.ts:310-338).  Values are modelled for defined JavaScript
values; the `autoDeleteOnSetUndefined` branch of `set` only fires for
`undefined`/`null` values, which have no counterpart in a typed store, and
`clear()` always rewrites the metadata record with the defined value it just
read.
-/

def META : String := "!!meta!!"

inductive DbErr where
  | notFound : DbErr
  | alreadyExists : DbErr
  deriving DecidableEq

abbrev IStore (V : Type) := List (String × V)

def get {V : Type} (st : IStore V) (k : String) : Except DbErr V :=
  match KV.kget st k with
  | some v => Except.ok v
  | none => Except.error DbErr.notFound

def set {V : Type} (st : IStore V) (k : String) (v : V) : IStore V :=
  KV.kput st k v

def delete {V : Type} (st : IStore V) (k : String) : IStore V :=
  KV.kdel st k

def has {V : Type} (st : IStore V) (k : String) : Bool :=
  (KV.kget st k).isSome

/-- `clear()`: read the metadata record, clear the whole partition, rewrite
the record.  (If the record were absent the initial read would reject.) -/
def clear {V : Type} (st : IStore V) : Except DbErr (IStore V) :=
  match KV.kget st META with
  | none => Except.error DbErr.notFound
  | some v => Except.ok (KV.kput ([] : IStore V) META v)

end IndexOps

namespace TopDB

/-!
Namespace management on the root database (src/src/aurum-db.ts:28-30 and
64-74, 142-182).  A collection named `name` of kind `index`/`ordered`/
`linked` lives in the subleveldown partition `name + kind`, and its
existence is materialised as the metadata record at
`makeSubDbId(name + kind, META_KEY)` in the flat key space.
-/

def META : String := "!!meta!!"

def makeSubDbId (subDbName id : String) : String :=
  "!" ++ subDbName ++ "!" ++ id

abbrev TStore (V : Type) := List (String × V)

def hasKey {V : Type} (db : TStore V) (k : String) : Bool :=
  (KV.kget db k).isSome

def hasIndex {V : Type} (db : TStore V) (name : String) : Bool :=
  hasKey db (makeSubDbId (name ++ "index") META)

def hasOrderedCollection {V : Type} (db : TStore V) (name : String) : Bool :=
  hasKey db (makeSubDbId (name ++ "ordered") META)

def hasLinkedCollection {V : Type} (db : TStore V) (name : String) : Bool :=
  hasKey db (makeSubDbId (name ++ "linked") META)

inductive CreateErr where
  | alreadyExists : CreateErr
  deriving DecidableEq

/-- `createIndex`: fails when the index exists, otherwise writes the
metadata record (value: the creation date as JSON, abstracted as `v`). -/
def createIndex {V : Type} (db : TStore V) (name : String) (v : V) :
    Except CreateErr (TStore V) :=
  if hasIndex db name then Except.error CreateErr.alreadyExists
  else Except.ok (KV.kput db (makeSubDbId (name ++ "index") META) v)

/-- `createOrderedCollection`: metadata record holds the initial length 0,
abstracted as `v`. -/
def createOrderedCollection {V : Type} (db : TStore V) (name : String) (v : V) :
    Except CreateErr (TStore V) :=
  if hasOrderedCollection db name then Except.error CreateErr.alreadyExists
  else Except.ok (KV.kput db (makeSubDbId (name ++ "ordered") META) v)

def createLinkedCollection {V : Type} (db : TStore V) (name : String) (v : V) :
    Except CreateErr (TStore V) :=
  if hasLinkedCollection db name then Except.error CreateErr.alreadyExists
  else Except.ok (KV.kput db (makeSubDbId (name ++ "linked") META) v)

end TopDB

namespace OrderedConc

/-!
Reachable states of the machine for the claim's scenario: three unawaited
`push` calls with values 1, 2, 3 on a freshly created (empty) collection.
Because every task is a `push`, each body is gated on the promise installed
by the previous call, so the reachable states are exactly parametrized by
the three tasks' phases.
-/

/-- Task `i` (0-based) pushing `[v]`: after its `phase 0` step its captured
chain promise is `i`, after its length read its `lenReg` is `i`. -/
def pushTask3 (v : Int) (i : Nat) (p : Nat) : Task Int :=
  { op := OpKind.push [v], phase := p,
    chainB := if p = 0 then 0 else i,
    lenReg := if 2 ≤ p then (i : Int) else 0,
    popReg := none, dead := false, doneFlag := p == 3 }

/-- Store contents after `k` of the three pushes have committed. -/
def store3 : Nat → OrderedSeq.OStore Int
  | 0 => [(OrderedSeq.OKey.meta, Sum.inl 0)]
  | 1 => [(OrderedSeq.OKey.meta, Sum.inl 1), (OrderedSeq.OKey.slot 0, Sum.inr 1)]
  | 2 => [(OrderedSeq.OKey.meta, Sum.inl 2), (OrderedSeq.OKey.slot 0, Sum.inr 1),
          (OrderedSeq.OKey.slot 1, Sum.inr 2)]
  | _ => [(OrderedSeq.OKey.meta, Sum.inl 3), (OrderedSeq.OKey.slot 0, Sum.inr 1),
          (OrderedSeq.OKey.slot 1, Sum.inr 2), (OrderedSeq.OKey.slot 2, Sum.inr 3)]

def doneCount3 (p : Nat × Nat × Nat) : Nat :=
  (if p.1 = 3 then 1 else 0) + (if p.2.1 = 3 then 1 else 0) +
    (if p.2.2 = 3 then 1 else 0)

def liveCount3 (p : Nat × Nat × Nat) : Nat :=
  (if p.1 = 0 then 0 else 1) + (if p.2.1 = 0 then 0 else 1) +
    (if p.2.2 = 0 then 0 else 1)

def st3 (p : Nat × Nat × Nat) : CState Int :=
  { store := store3 (doneCount3 p), lock := liveCount3 p,
    resolvedList := List.range (doneCount3 p + 1),
    tasks := [pushTask3 1 0 p.1, pushTask3 2 1 p.2.1, pushTask3 3 2 p.2.2] }

/-- The phase triples of all reachable states: task `i+1` takes its ordered
`phase 0` step only after task `i` did, and enters its body only after task
`i` committed. -/
def pushPhases : List (Nat × Nat × Nat) :=
  [(0,0,0), (1,0,0), (2,0,0), (1,1,0), (3,0,0), (2,1,0), (1,1,1), (3,1,0),
   (2,1,1), (3,2,0), (3,1,1), (3,3,0), (3,2,1), (3,3,1), (3,3,2), (3,3,3)]

/-- All states reachable from three unawaited pushes of 1, 2, 3. -/
def L3 : List (CState Int) := pushPhases.map st3

/-- Initial store of a freshly created ordered collection. -/
def emptyStore : OrderedSeq.OStore Int := [(OrderedSeq.OKey.meta, Sum.inl 0)]

def threePushes : List (OpKind Int) :=
  [OpKind.push [1], OpKind.push [2], OpKind.push [3]]

/-- The single task of the pop-on-empty scenario at phase `p`. -/
def popTask0 (p : Nat) (d : Bool) : Task Int :=
  { op := OpKind.pop, phase := p, chainB := 0, lenReg := 0, popReg := none,
    dead := d, doneFlag := false }

/-- All states reachable from one unawaited `pop` on an empty collection:
the body reads length 0, the engine read of slot `-1` rejects inside the
executor, and the task dies with its promise unresolved. -/
def LPop : List (CState Int) :=
  [ { store := emptyStore, lock := 0, resolvedList := [0], tasks := [popTask0 0 false] },
    { store := emptyStore, lock := 1, resolvedList := [0], tasks := [popTask0 1 false] },
    { store := emptyStore, lock := 1, resolvedList := [0], tasks := [popTask0 2 false] },
    { store := emptyStore, lock := 1, resolvedList := [0], tasks := [popTask0 2 true] } ]

end OrderedConc

namespace KV

theorem kget_kput_self {κ α : Type} [DecidableEq κ] (l : List (κ × α)) (k : κ)
    (v : α) : kget (kput l k v) k = some v := by
  induction l with
  | nil => simp [kget, kput]
  | cons p rest ih =>
    by_cases h : p.1 = k
    · simp [kput, h, kget]
    · simp [kput, h, kget, ih]

theorem kget_kput_ne {κ α : Type} [DecidableEq κ] (l : List (κ × α))
    (k k' : κ) (v : α) (h : k' ≠ k) : kget (kput l k v) k' = kget l k' := by
  induction l with
  | nil => simp [kget, kput, Ne.symm h]
  | cons p rest ih =>
    by_cases hp : p.1 = k
    · have hp' : p.1 ≠ k' := by
        rw [hp]; exact Ne.symm h
      simp [kput, hp, kget, Ne.symm h, hp']
    · by_cases hq : p.1 = k'
      · simp [kput, hp, kget, hq, h]
      · simp [kput, hp, kget, hq, ih]

theorem kget_kdel_self {κ α : Type} [DecidableEq κ] (l : List (κ × α))
    (k : κ) : kget (kdel l k) k = none := by
  induction l with
  | nil => simp [kdel, kget]
  | cons p rest ih =>
    by_cases h : p.1 = k
    · simp [kdel, h, ih]
    · simp [kdel, h, kget, ih]

theorem kget_kdel_ne {κ α : Type} [DecidableEq κ] (l : List (κ × α))
    (k k' : κ) (h : k' ≠ k) : kget (kdel l k) k' = kget l k' := by
  induction l with
  | nil => simp [kdel]
  | cons p rest ih =>
    by_cases hp : p.1 = k
    · have hp' : p.1 ≠ k' := by
        rw [hp]; exact Ne.symm h
      simp [kdel, hp, kget, hp', ih, Ne.symm h]
    · by_cases hq : p.1 = k'
      · simp [kdel, hp, kget, hq, h]
      · simp [kdel, hp, kget, hq, ih]

theorem kget_of_not_mem_keys {κ α : Type} [DecidableEq κ] (l : List (κ × α))
    (k : κ) (h : k ∉ l.map Prod.fst) : kget l k = none := by
  induction l with
  | nil => rfl
  | cons p rest ih =>
    simp only [List.map_cons, List.mem_cons, not_or] at h
    have : p.1 ≠ k := fun he => h.1 he.symm
    simp [kget, this, ih h.2]

theorem kget_append_of_none {κ α : Type} [DecidableEq κ] (l1 l2 : List (κ × α))
    (k : κ) (h : kget l1 k = none) : kget (l1 ++ l2) k = kget l2 k := by
  induction l1 with
  | nil => rfl
  | cons p rest ih =>
    by_cases hp : p.1 = k
    · simp [kget, hp] at h
    · simp only [kget, hp, if_false, List.cons_append] at h ⊢
      simp [kget, hp, ih h]

theorem kget_append_of_some {κ α : Type} [DecidableEq κ] (l1 l2 : List (κ × α))
    (k : κ) (v : α) (h : kget l1 k = some v) : kget (l1 ++ l2) k = some v := by
  induction l1 with
  | nil => simp [kget] at h
  | cons p rest ih =>
    by_cases hp : p.1 = k
    · simp only [kget, hp, if_true] at h
      simp [kget, hp, h]
    · simp only [kget, hp, if_false] at h ⊢
      simp [kget, hp, ih h]

end KV

namespace IndexObs

theorem stepRun_put {V : Type} (db view : List (String × V)) (rem : List String)
    (pend : Option (String × Option V)) (failed : Bool) (k : String) (v : V) :
    stepRun ⟨db, view, rem, pend, failed⟩ (Step.put k v)
      = ⟨KV.kput db k v, KV.kput view k v, rem, pend, failed⟩ := rfl

theorem stepRun_del {V : Type} (db view : List (String × V)) (rem : List String)
    (pend : Option (String × Option V)) (failed : Bool) (k : String) :
    stepRun ⟨db, view, rem, pend, failed⟩ (Step.del k)
      = ⟨KV.kdel db k, KV.kdel view k, rem, pend, failed⟩ := rfl

theorem stepRun_sample_pending {V : Type} (db view : List (String × V))
    (rem : List String) (p : String × Option V) (failed : Bool) :
    stepRun ⟨db, view, rem, some p, failed⟩ Step.sample
      = ⟨db, view, rem, some p, failed⟩ := by
  cases rem <;> rfl

theorem stepRun_sample_nil {V : Type} (db view : List (String × V))
    (pend : Option (String × Option V)) (failed : Bool) :
    stepRun ⟨db, view, [], pend, failed⟩ Step.sample
      = ⟨db, view, [], pend, failed⟩ := by
  cases pend <;> rfl

theorem stepRun_sample_delim {V : Type} (db view : List (String × V))
    (k : String) (rest : List String) (failed : Bool)
    (hdel : hasDelim k = true) :
    stepRun ⟨db, view, k :: rest, none, failed⟩ Step.sample
      = ⟨db, view, rest, none, failed⟩ := by
  simp [stepRun, hdel]

theorem stepRun_sample_data {V : Type} (db view : List (String × V))
    (k : String) (rest : List String) (failed : Bool)
    (hdel : hasDelim k = false) :
    stepRun ⟨db, view, k :: rest, none, failed⟩ Step.sample
      = ⟨db, view, rest, some (k, KV.kget db k), failed⟩ := by
  simp [stepRun, hdel]

theorem stepRun_record_none {V : Type} (db view : List (String × V))
    (rem : List String) (failed : Bool) :
    stepRun ⟨db, view, rem, none, failed⟩ Step.record
      = ⟨db, view, rem, none, failed⟩ := rfl

theorem stepRun_record_hit {V : Type} (db view : List (String × V))
    (rem : List String) (failed : Bool) (k : String) (v : V) :
    stepRun ⟨db, view, rem, some (k, some v), failed⟩ Step.record
      = ⟨db, KV.kput view k v, rem, none, failed⟩ := rfl

theorem stepRun_record_miss {V : Type} (db view : List (String × V))
    (rem : List String) (failed : Bool) (k : String) :
    stepRun ⟨db, view, rem, some (k, none), failed⟩ Step.record
      = ⟨db, view, rem, none, true⟩ := rfl

theorem scanInv_initObs {V : Type} (db0 : List (String × V)) :
    scanInv (initObs db0) := by
  refine ⟨rfl, fun _ k _ => ?_⟩
  by_cases hk : k ∈ db0.map Prod.fst
  · exact Or.inr ⟨hk, rfl⟩
  · exact Or.inl (by
      show KV.kget ([] : List (String × V)) k = KV.kget db0 k
      rw [KV.kget_of_not_mem_keys db0 k hk]
      rfl)

theorem scanInv_astep {V : Type} (s : ObsState V) (a : AStep V)
    (hs : scanInv s) : scanInv (astep s a) := by
  obtain ⟨db, view, remaining, pending, failed⟩ := s
  obtain ⟨hp, hinv⟩ := hs
  simp only at hp
  subst hp
  cases a with
  | put k' v' =>
    rw [show astep ⟨db, view, remaining, none, failed⟩ (AStep.put k' v')
          = stepRun ⟨db, view, remaining, none, failed⟩ (Step.put k' v') from rfl,
        stepRun_put]
    refine ⟨rfl, fun hf k hk => ?_⟩
    by_cases hkk : k = k'
    · subst hkk
      exact Or.inl (by rw [KV.kget_kput_self, KV.kget_kput_self])
    · rw [show (⟨KV.kput db k' v', KV.kput view k' v', remaining, none, failed⟩
            : ObsState V).view = KV.kput view k' v' from rfl,
          KV.kget_kput_ne view k' k v' hkk, KV.kget_kput_ne db k' k v' hkk]
      exact hinv hf k hk
  | del k' =>
    rw [show astep ⟨db, view, remaining, none, failed⟩ (AStep.del k')
          = stepRun ⟨db, view, remaining, none, failed⟩ (Step.del k') from rfl,
        stepRun_del]
    refine ⟨rfl, fun hf k hk => ?_⟩
    by_cases hkk : k = k'
    · subst hkk
      exact Or.inl (by rw [KV.kget_kdel_self, KV.kget_kdel_self])
    · rw [show (⟨KV.kdel db k', KV.kdel view k', remaining, none, failed⟩
            : ObsState V).view = KV.kdel view k' from rfl,
          KV.kget_kdel_ne view k' k hkk, KV.kget_kdel_ne db k' k hkk]
      exact hinv hf k hk
  | scan =>
    show scanInv (stepRun (stepRun ⟨db, view, remaining, none, failed⟩
      Step.sample) Step.record)
    cases remaining with
    | nil =>
      rw [stepRun_sample_nil, stepRun_record_none]
      exact ⟨rfl, fun hf k hk => hinv hf k hk⟩
    | cons k0 rest =>
      by_cases hdel : hasDelim k0
      · rw [stepRun_sample_delim db view k0 rest failed hdel, stepRun_record_none]
        refine ⟨rfl, fun hf k hk => ?_⟩
        rcases hinv hf k hk with h | ⟨hmem, hv⟩
        · exact Or.inl h
        · rcases List.mem_cons.mp hmem with he | hmem'
          · exact absurd (he ▸ hk) (by simp [hdel])
          · exact Or.inr ⟨hmem', hv⟩
      · rw [Bool.not_eq_true] at hdel
        rw [stepRun_sample_data db view k0 rest failed hdel]
        cases hv0 : KV.kget db k0 with
        | some v =>
          rw [stepRun_record_hit]
          refine ⟨rfl, fun hf k hk => ?_⟩
          by_cases hkk : k = k0
          · subst hkk
            exact Or.inl (by
              show KV.kget (KV.kput view k v) k = KV.kget db k
              rw [KV.kget_kput_self, hv0])
          · rw [show (⟨db, KV.kput view k0 v, rest, none, failed⟩
                  : ObsState V).view = KV.kput view k0 v from rfl,
                KV.kget_kput_ne view k0 k v hkk]
            rcases hinv hf k hk with h | ⟨hmem, hv⟩
            · exact Or.inl h
            · rcases List.mem_cons.mp hmem with he | hmem'
              · exact absurd he hkk
              · exact Or.inr ⟨hmem', hv⟩
        | none =>
          rw [stepRun_record_miss]
          exact ⟨rfl, fun hf _ _ => by cases hf⟩

theorem scanInv_arun {V : Type} (db0 : List (String × V))
    (tr : List (AStep V)) : scanInv (arun (initObs db0) tr) := by
  suffices h : ∀ s : ObsState V, scanInv s → scanInv (arun s tr) from
    h _ (scanInv_initObs db0)
  induction tr with
  | nil => exact fun s hs => hs
  | cons a rest ih => exact fun s hs => ih (astep s a) (scanInv_astep s a hs)

theorem viewClean_stepRun {V : Type} (s : ObsState V) (st : Step V)
    (hs : viewClean s)
    (hput : ∀ k v, st = Step.put k v → hasDelim k = false) :
    viewClean (stepRun s st) := by
  obtain ⟨db, view, remaining, pending, failed⟩ := s
  obtain ⟨hview, hpend⟩ := hs
  cases st with
  | put k' v' =>
    have hk' : hasDelim k' = false := hput k' v' rfl
    rw [stepRun_put]
    refine ⟨fun k hk => ?_, fun k p hpeq => hpend k p hpeq⟩
    have hkk : k ≠ k' := fun he => by rw [he, hk'] at hk; cases hk
    show KV.kget (KV.kput view k' v') k = none
    rw [KV.kget_kput_ne view k' k v' hkk]
    exact hview k hk
  | del k' =>
    rw [stepRun_del]
    refine ⟨fun k hk => ?_, fun k p hpeq => hpend k p hpeq⟩
    show KV.kget (KV.kdel view k') k = none
    by_cases hkk : k = k'
    · subst hkk; exact KV.kget_kdel_self view k
    · rw [KV.kget_kdel_ne view k' k hkk]; exact hview k hk
  | sample =>
    cases pending with
    | some p =>
      rw [stepRun_sample_pending]
      exact ⟨hview, fun k q hpeq => hpend k q hpeq⟩
    | none =>
      cases remaining with
      | nil =>
        rw [stepRun_sample_nil]
        exact ⟨hview, fun k q hpeq => hpend k q hpeq⟩
      | cons k0 rest =>
        by_cases hdel : hasDelim k0
        · rw [stepRun_sample_delim db view k0 rest failed hdel]
          exact ⟨hview, fun k q hpeq => by cases hpeq⟩
        · rw [Bool.not_eq_true] at hdel
          rw [stepRun_sample_data db view k0 rest failed hdel]
          refine ⟨hview, fun k q hpeq => ?_⟩
          simp only [Option.some.injEq, Prod.mk.injEq] at hpeq
          rw [← hpeq.1]
          exact hdel
  | record =>
    cases pending with
    | none =>
      rw [stepRun_record_none]
      exact ⟨hview, fun k q hpeq => by cases hpeq⟩
    | some p =>
      obtain ⟨kp, vp⟩ := p
      have hkp : hasDelim kp = false := hpend kp vp rfl
      cases vp with
      | none =>
        rw [stepRun_record_miss]
        exact ⟨hview, fun k q hpeq => by cases hpeq⟩
      | some v =>
        rw [stepRun_record_hit]
        refine ⟨fun k hk => ?_, fun k q hpeq => by cases hpeq⟩
        show KV.kget (KV.kput view kp v) k = none
        have hkk : k ≠ kp := fun he => by rw [he, hkp] at hk; cases hk
        rw [KV.kget_kput_ne view kp k v hkk]
        exact hview k hk

theorem viewClean_run {V : Type} (s : ObsState V) (tr : List (Step V))
    (hs : viewClean s) (htr : putsDataOnly tr = true) : viewClean (run s tr) := by
  induction tr generalizing s with
  | nil => exact hs
  | cons a rest ih =>
    simp only [putsDataOnly, List.all_cons, Bool.and_eq_true] at htr
    refine ih (stepRun s a) (viewClean_stepRun s a hs ?_) ?_
    · intro k v he
      subst he
      simpa using htr.1
    · exact htr.2

end IndexObs

/-- C1, counterexample.  In `observeEntireIndex` the engine read of a
snapshot key (`await that.get(key)`) and the insertion of the value into the
view (`result.set`) are separate steps of the cooperative execution, so a
concurrent delete can land between them.  Concretely: the store holds
`"a" ↦ 0`; the scan issues its read of `"a"`, the key is deleted (the live
handler removes it from the view), and then the read resolves with the old
value and re-inserts it.  The scan completes (`remaining = []`, no pending
read, not failed) and the single concurrent mutation has been applied, yet
the returned view still contains the deleted key — refuting the claim's
"regardless of the interleaving of the scan steps and the live mutation
events". -/
theorem C1_observe_entire_index_counterexample :
    (let s := IndexObs.run (IndexObs.initObs [("a", (0 : Int))])
      [IndexObs.Step.sample, IndexObs.Step.del "a", IndexObs.Step.record]
     s.remaining = [] ∧ s.pending = none ∧ s.failed = false ∧
       KV.kget s.db "a" = none ∧ KV.kget s.view "a" = some 0) := by
  decide

/-- C1, amended (proved): if every scan read is atomic with respect to the
live mutation events — no event applies between the engine read of a key and
the recording of that value in the view, the granularity at which the engine
completes reads in issue order — then for every interleaving of such scan
steps with the mutations, once the scan has consumed the whole snapshot
(`remaining = []`) without a read failing, the view agrees with the final
store on every non-metadata key: every surviving key is present at its final
written value and deleted keys are absent. -/
theorem C1_observe_entire_index_amended {V : Type} (db0 : List (String × V))
    (tr : List (IndexObs.AStep V))
    (hdone : (IndexObs.arun (IndexObs.initObs db0) tr).remaining = [])
    (hok : (IndexObs.arun (IndexObs.initObs db0) tr).failed = false)
    (k : String) (hk : hasDelim k = false) :
    KV.kget (IndexObs.arun (IndexObs.initObs db0) tr).view k
      = KV.kget (IndexObs.arun (IndexObs.initObs db0) tr).db k := by
  rcases (IndexObs.scanInv_arun db0 tr).2 hok k hk with h | ⟨hmem, _⟩
  · exact h
  · rw [hdone] at hmem
    cases hmem

/-- C1, witness for the amended theorem: store `"a" ↦ 1`, one atomic scan
step followed by a concurrent overwrite of `"a"`; the view agrees with the
final store at `"a"`. -/
theorem C1_observe_entire_index_amended_witness :
    KV.kget (IndexObs.arun (IndexObs.initObs [("a", (1 : Int))])
        [IndexObs.AStep.scan, IndexObs.AStep.put "a" 2]).view "a"
      = KV.kget (IndexObs.arun (IndexObs.initObs [("a", (1 : Int))])
        [IndexObs.AStep.scan, IndexObs.AStep.put "a" 2]).db "a" :=
  C1_observe_entire_index_amended [("a", (1 : Int))]
    [IndexObs.AStep.scan, IndexObs.AStep.put "a" 2]
    (by decide) (by decide) "a" (by decide)

/-- C6, counterexample.  The bootstrap scan filters out keys containing '!',
but the live handler `onKeyChange` does not: it calls `mds.set(k, v)` on
every whole-index observer for every put event, whatever the key.  A put
event for the reserved metadata key — which really occurs: `clear()`
rewrites `'!!meta!!'` through the partition, and any nested sub-collection
write appears in the parent partition under a `'!...!'` key — therefore
surfaces a '!' key in the observed view.  Here: empty index, observer
registered, scan already complete, then a put event for `'!!meta!!'`; the
key appears in the view. -/
theorem C6_no_delim_keys_counterexample :
    (let s := IndexObs.run (IndexObs.initObs ([] : List (String × Int)))
      [IndexObs.Step.put "!!meta!!" 0]
     s.remaining = [] ∧ s.pending = none ∧ s.failed = false ∧
       hasDelim "!!meta!!" = true ∧ KV.kget s.view "!!meta!!" = some 0) := by
  decide

/-- C6, amended (proved): keys containing '!' are never surfaced by the
bootstrap scan; only a live put event whose key itself contains '!' can put
such a key into the view.  For every initial store and every interleaving of
scan steps with live events whose put keys are all '!'-free, no '!' key ever
appears in the observed view. -/
theorem C6_no_delim_keys_amended {V : Type} (db0 : List (String × V))
    (tr : List (IndexObs.Step V)) (htr : IndexObs.putsDataOnly tr = true)
    (k : String) (hk : hasDelim k = true) :
    KV.kget (IndexObs.run (IndexObs.initObs db0) tr).view k = none := by
  have hinit : IndexObs.viewClean (IndexObs.initObs db0) :=
    ⟨fun _ _ => rfl, fun _ _ h => by cases h⟩
  exact (IndexObs.viewClean_run (IndexObs.initObs db0) tr hinit htr).1 k hk

/-- C6, witness for the amended theorem: a store containing both a metadata
key and a data key, a full scan plus a data put and a delete; the metadata
key is absent from the view. -/
theorem C6_no_delim_keys_amended_witness :
    KV.kget (IndexObs.run
        (IndexObs.initObs [("!!meta!!", (9 : Int)), ("a", 1)])
        [IndexObs.Step.sample, IndexObs.Step.sample, IndexObs.Step.record,
         IndexObs.Step.put "b" 2, IndexObs.Step.del "a"]).view "!!meta!!"
      = none :=
  C6_no_delim_keys_amended [("!!meta!!", (9 : Int)), ("a", 1)]
    [IndexObs.Step.sample, IndexObs.Step.sample, IndexObs.Step.record,
     IndexObs.Step.put "b" 2, IndexObs.Step.del "a"]
    (by decide) "!!meta!!" (by decide)

namespace OrderedSeq

theorem length_mkStore {V : Type} (L : Nat) (f : Nat → V) :
    length (mkStore L f) = Except.ok (L : Int) := by
  simp [length, mkStore, KV.kget]

theorem kget_slotsUpto {V : Type} (f : Nat → V) (L : Nat) (j : Int) :
    KV.kget (slotsUpto f L) (OKey.slot j)
      = if 0 ≤ j ∧ j < (L : Int) then some (Sum.inr (f j.toNat)) else none := by
  induction L with
  | zero =>
    simp only [slotsUpto, KV.kget]
    rw [if_neg]
    omega
  | succ n ih =>
    by_cases hj : 0 ≤ j ∧ j < (n : Int)
    · rw [slotsUpto, KV.kget_append_of_some _ _ _ _ (by rw [ih, if_pos hj])]
      rw [if_pos (by omega)]
    · rw [slotsUpto, KV.kget_append_of_none _ _ _ (by rw [ih, if_neg hj])]
      by_cases he : j = (n : Int)
      · subst he
        have hc : 0 ≤ (n : Int) ∧ (n : Int) < ((n + 1 : Nat) : Int) := by
          constructor <;> omega
        simp only [KV.kget, if_pos rfl, if_pos hc]
        simp
      · have hne : OKey.slot (n : Int) ≠ OKey.slot j := by
          intro hc
          injection hc with hc'
          exact he hc'.symm
        simp only [KV.kget, hne, if_false]
        rw [if_neg (by omega)]

theorem kget_mkStore_slot {V : Type} (L : Nat) (f : Nat → V) (j : Int) :
    KV.kget (mkStore L f) (OKey.slot j)
      = if 0 ≤ j ∧ j < (L : Int) then some (Sum.inr (f j.toNat)) else none := by
  rw [mkStore, show KV.kget ((OKey.meta, (Sum.inl (L : Int) : Int ⊕ V))
      :: slotsUpto f L) (OKey.slot j) = KV.kget (slotsUpto f L) (OKey.slot j)
    from by simp [KV.kget], kget_slotsUpto]

theorem readRange_mkStore {V : Type} (L : Nat) (f : Nat → V) :
    ∀ (n : Nat) (a : Int), 0 ≤ a → a + n ≤ (L : Int) →
      readRange (mkStore L f) a n
        = Except.ok ((List.range n).map fun j => f (a.toNat + j)) := by
  intro n
  induction n with
  | zero => intro a _ _; rfl
  | succ m ih =>
    intro a ha haL
    have hslot : KV.kget (mkStore L f) (OKey.slot a)
        = some (Sum.inr (f a.toNat)) := by
      rw [kget_mkStore_slot, if_pos (by omega)]
    rw [readRange, hslot, ih (a + 1) (by omega) (by omega)]
    rw [List.range_succ_eq_map]
    simp only [List.map_cons, List.map_map]
    refine congrArg Except.ok (congrArg₂ List.cons (by simp) ?_)
    refine List.map_congr_left fun j _ => ?_
    show f ((a + 1).toNat + j) = f (a.toNat + (j + 1))
    congr 1
    omega

end OrderedSeq

/-- C4, counterexample.  The source's bounds check is `if (index > len)`,
not `index >= len`: on a collection of length 1 (slot `0 ↦ 7`), `get(1)`
passes the check and fails with the engine's NotFound for the missing slot
key instead of the OutOfBounds error, and `set(1, 99)` passes the check and
succeeds, writing slot 1 while leaving the stored length at 1 — refuting
"fails with OutOfBounds for every index >= L" for both operations. -/
theorem C4_bounds_counterexample :
    OrderedSeq.get (OrderedSeq.mkStore 1 (fun _ => (7 : Int))) 1
        = Except.error OrderedSeq.OCErr.notFound ∧
      OrderedSeq.set (OrderedSeq.mkStore 1 (fun _ => (7 : Int))) 1 99
        = Except.ok [(OrderedSeq.OKey.meta, Sum.inl 1),
            (OrderedSeq.OKey.slot 0, Sum.inr 7),
            (OrderedSeq.OKey.slot 1, Sum.inr 99)] := by
  decide

/-- C4, amended (proved).  On a collection of length `L` with contents `f`:
`get`/`set` fail with their OutOfBounds errors exactly for `index > L`
(strictly); for `0 <= index < L`, `get` returns the stored slot value and
`set` updates the stored slot; at the boundary `index = L` (which the claim
said must fail with OutOfBounds), `get` instead fails with the engine's
NotFound for the absent slot key, and `set` succeeds, writing slot `L`
while leaving the stored length unchanged. -/
theorem C4_bounds_amended {V : Type} (L : Nat) (f : Nat → V) (index : Int)
    (v : V) :
    ((L : Int) < index →
      OrderedSeq.get (OrderedSeq.mkStore L f) index
          = Except.error OrderedSeq.OCErr.readOOB ∧
        OrderedSeq.set (OrderedSeq.mkStore L f) index v
          = Except.error OrderedSeq.OCErr.writeOOB) ∧
    (0 ≤ index → index < (L : Int) →
      OrderedSeq.get (OrderedSeq.mkStore L f) index = Except.ok (f index.toNat) ∧
        OrderedSeq.set (OrderedSeq.mkStore L f) index v
          = Except.ok (KV.kput (OrderedSeq.mkStore L f)
              (OrderedSeq.OKey.slot index) (Sum.inr v))) ∧
    (index = (L : Int) →
      OrderedSeq.get (OrderedSeq.mkStore L f) index
          = Except.error OrderedSeq.OCErr.notFound ∧
        OrderedSeq.set (OrderedSeq.mkStore L f) index v
          = Except.ok (KV.kput (OrderedSeq.mkStore L f)
              (OrderedSeq.OKey.slot index) (Sum.inr v)) ∧
        OrderedSeq.length (KV.kput (OrderedSeq.mkStore L f)
            (OrderedSeq.OKey.slot index) (Sum.inr v))
          = Except.ok (L : Int)) := by
  have hmetaslot : OrderedSeq.OKey.meta ≠ OrderedSeq.OKey.slot index :=
    fun hc => OrderedSeq.OKey.noConfusion hc
  refine ⟨fun hgt => ?_, fun h0 hlt => ?_, fun heq => ?_⟩
  · constructor
    · simp only [OrderedSeq.get, OrderedSeq.length_mkStore]
      rw [if_pos hgt]
    · simp only [OrderedSeq.set, OrderedSeq.length_mkStore]
      rw [if_pos hgt]
  · have hslot : KV.kget (OrderedSeq.mkStore L f) (OrderedSeq.OKey.slot index)
        = some (Sum.inr (f index.toNat)) := by
      rw [OrderedSeq.kget_mkStore_slot, if_pos ⟨h0, hlt⟩]
    constructor
    · simp only [OrderedSeq.get, OrderedSeq.length_mkStore]
      rw [if_neg (by omega), hslot]
    · simp only [OrderedSeq.set, OrderedSeq.length_mkStore]
      rw [if_neg (by omega)]
  · subst heq
    have hslot : KV.kget (OrderedSeq.mkStore L f) (OrderedSeq.OKey.slot (L : Int))
        = none := by
      rw [OrderedSeq.kget_mkStore_slot, if_neg (by omega)]
    refine ⟨?_, ?_, ?_⟩
    · simp only [OrderedSeq.get, OrderedSeq.length_mkStore]
      rw [if_neg (by omega), hslot]
    · simp only [OrderedSeq.set, OrderedSeq.length_mkStore]
      rw [if_neg (by omega)]
    · rw [OrderedSeq.length,
        KV.kget_kput_ne _ _ _ _ hmetaslot]
      rw [show KV.kget (OrderedSeq.mkStore L f) OrderedSeq.OKey.meta
            = some (Sum.inl (L : Int)) from by simp [OrderedSeq.mkStore, KV.kget]]

/-- C4, witness for the amended theorem at `L = 1`, contents `7`,
`index = 1` (the boundary case) and `index = 0` (the in-range case). -/
theorem C4_bounds_amended_witness :
    OrderedSeq.get (OrderedSeq.mkStore 1 (fun _ => (7 : Int))) 0
        = Except.ok 7 ∧
      OrderedSeq.get (OrderedSeq.mkStore 1 (fun _ => (7 : Int))) 1
        = Except.error OrderedSeq.OCErr.notFound ∧
      OrderedSeq.length (KV.kput (OrderedSeq.mkStore 1 (fun _ => (7 : Int)))
          (OrderedSeq.OKey.slot 1) (Sum.inr 99))
        = Except.ok 1 :=
  ⟨((C4_bounds_amended 1 (fun _ => (7 : Int)) 0 99).2.1 (by decide) (by decide)).1,
   ((C4_bounds_amended 1 (fun _ => (7 : Int)) 1 99).2.2 (by decide)).1,
   ((C4_bounds_amended 1 (fun _ => (7 : Int)) 1 99).2.2 (by decide)).2.2⟩

/-- C10 (confirmed).  Negative indices pass the `index > len` check, so
neither `get` nor `set` ever raises an OutOfBounds error for them: on a
collection of length `L`, `get(index)` with `index < 0` fails with the
engine's NotFound for the missing slot key, and `set(index, v)` succeeds,
writing a slot outside `[0, L)` while leaving the stored length unchanged. -/
theorem C10_negative_index {V : Type} (L : Nat) (f : Nat → V) (index : Int)
    (v : V) (h : index < 0) :
    OrderedSeq.get (OrderedSeq.mkStore L f) index
        = Except.error OrderedSeq.OCErr.notFound ∧
      OrderedSeq.set (OrderedSeq.mkStore L f) index v
        = Except.ok (KV.kput (OrderedSeq.mkStore L f)
            (OrderedSeq.OKey.slot index) (Sum.inr v)) ∧
      OrderedSeq.length (KV.kput (OrderedSeq.mkStore L f)
          (OrderedSeq.OKey.slot index) (Sum.inr v))
        = Except.ok (L : Int) := by
  have hmetaslot : OrderedSeq.OKey.meta ≠ OrderedSeq.OKey.slot index :=
    fun hc => OrderedSeq.OKey.noConfusion hc
  have hslot : KV.kget (OrderedSeq.mkStore L f) (OrderedSeq.OKey.slot index)
      = none := by
    rw [OrderedSeq.kget_mkStore_slot, if_neg (by omega)]
  refine ⟨?_, ?_, ?_⟩
  · simp only [OrderedSeq.get, OrderedSeq.length_mkStore]
    rw [if_neg (by omega), hslot]
  · simp only [OrderedSeq.set, OrderedSeq.length_mkStore]
    rw [if_neg (by omega)]
  · rw [OrderedSeq.length, KV.kget_kput_ne _ _ _ _ hmetaslot]
    rw [show KV.kget (OrderedSeq.mkStore L f) OrderedSeq.OKey.meta
          = some (Sum.inl (L : Int)) from by simp [OrderedSeq.mkStore, KV.kget]]

/-- C10, witness: length-1 collection, `get(-1)` is NotFound and `set(-1, 5)`
writes slot `-1` with the stored length still 1. -/
theorem C10_negative_index_witness :
    OrderedSeq.get (OrderedSeq.mkStore 1 (fun _ => (7 : Int))) (-1)
        = Except.error OrderedSeq.OCErr.notFound ∧
      OrderedSeq.set (OrderedSeq.mkStore 1 (fun _ => (7 : Int))) (-1) 5
        = Except.ok (KV.kput (OrderedSeq.mkStore 1 (fun _ => (7 : Int)))
            (OrderedSeq.OKey.slot (-1)) (Sum.inr 5)) ∧
      OrderedSeq.length (KV.kput (OrderedSeq.mkStore 1 (fun _ => (7 : Int)))
          (OrderedSeq.OKey.slot (-1)) (Sum.inr 5))
        = Except.ok 1 :=
  C10_negative_index 1 (fun _ => (7 : Int)) (-1) 5 (by decide)

/-- C9 (confirmed).  On a collection of length `L` with contents `f`,
`slice(a, b)` fails with the source's RangeError (the thrown
"outside of bounds" error) exactly when `a < 0` or `b > L` or `a > L` or
`b < 0`; for all bounds inside `[0, L]` it returns exactly the elements of
the half-open range `[a, b)` in index order. -/
theorem C9_slice_bounds {V : Type} (L : Nat) (f : Nat → V) (a b : Int) :
    ((a < 0 ∨ b > (L : Int) ∨ a > (L : Int) ∨ b < 0) →
      OrderedSeq.slice (OrderedSeq.mkStore L f) a b
        = Except.error OrderedSeq.OCErr.writeOOB) ∧
    (0 ≤ a → a ≤ (L : Int) → 0 ≤ b → b ≤ (L : Int) →
      OrderedSeq.slice (OrderedSeq.mkStore L f) a b
        = Except.ok ((List.range (b - a).toNat).map fun j => f (a.toNat + j))) := by
  constructor
  · intro h
    have hc : a > (L : Int) ∨ a < 0 ∨ b > (L : Int) ∨ b < 0 := by omega
    simp only [OrderedSeq.slice, OrderedSeq.length_mkStore]
    rw [if_pos hc]
  · intro h0a haL h0b hbL
    have hc : ¬(a > (L : Int) ∨ a < 0 ∨ b > (L : Int) ∨ b < 0) := by omega
    simp only [OrderedSeq.slice, OrderedSeq.length_mkStore]
    rw [if_neg hc, OrderedSeq.readRange_mkStore L f (b - a).toNat a h0a (by omega)]

/-- C9, witness at `L = 2`, contents `f i = i`: a valid slice and an invalid
one. -/
theorem C9_slice_bounds_witness :
    OrderedSeq.slice (OrderedSeq.mkStore 2 (fun i => (i : Int))) 0 2
        = Except.ok [0, 1] ∧
      OrderedSeq.slice (OrderedSeq.mkStore 2 (fun i => (i : Int))) (-1) 1
        = Except.error OrderedSeq.OCErr.writeOOB := by
  constructor
  · have h := (C9_slice_bounds 2 (fun i => (i : Int)) 0 2).2
      (by decide) (by decide) (by decide) (by decide)
    rw [h]
    decide
  · exact (C9_slice_bounds 2 (fun i => (i : Int)) (-1) 1).1 (by decide)

namespace OrderedConc

theorem cstep_oob {V : Type} (s : CState V) (t : Nat)
    (h : s.tasks.length ≤ t) : cstep s t = s := by
  have hn : s.tasks[t]? = none := by
    rw [← List.get?_eq_getElem?]
    exact List.get?_eq_none.mpr h
  simp [cstep, hn]

theorem L3_closed :
    ∀ s ∈ L3, cstep s 0 ∈ L3 ∧ cstep s 1 ∈ L3 ∧ cstep s 2 ∈ L3 := by decide

theorem L3_tasks_length : ∀ s ∈ L3, s.tasks.length = 3 := by decide

theorem L3_cstep (s : CState Int) (hs : s ∈ L3) (t : Nat) : cstep s t ∈ L3 := by
  match t with
  | 0 => exact (L3_closed s hs).1
  | 1 => exact (L3_closed s hs).2.1
  | 2 => exact (L3_closed s hs).2.2
  | n + 3 =>
    rw [cstep_oob s (n + 3) (by rw [L3_tasks_length s hs]; omega)]
    exact hs

theorem L3_crun (sched : List Nat) : ∀ s ∈ L3, crun s sched ∈ L3 := by
  induction sched with
  | nil => exact fun _ hs => hs
  | cons t rest ih => exact fun s hs => ih (cstep s t) (L3_cstep s hs t)

theorem init3_mem : initC emptyStore threePushes ∈ L3 := by decide

theorem L3_final : ∀ s ∈ L3, allDone s = true →
    OrderedSeq.length s.store = Except.ok 3 ∧
      OrderedSeq.toArray s.store = Except.ok [1, 2, 3] := by decide

theorem LPop_closed : ∀ s ∈ LPop, cstep s 0 ∈ LPop := by decide

theorem LPop_tasks_length : ∀ s ∈ LPop, s.tasks.length = 1 := by decide

theorem LPop_cstep (s : CState Int) (hs : s ∈ LPop) (t : Nat) :
    cstep s t ∈ LPop := by
  match t with
  | 0 => exact LPop_closed s hs
  | n + 1 =>
    rw [cstep_oob s (n + 1) (by rw [LPop_tasks_length s hs]; omega)]
    exact hs

theorem LPop_crun (sched : List Nat) : ∀ s ∈ LPop, crun s sched ∈ LPop := by
  induction sched with
  | nil => exact fun _ hs => hs
  | cons t rest ih => exact fun s hs => ih (cstep s t) (LPop_cstep s hs t)

theorem initPop_mem :
    initC (OrderedSeq.mkStore 0 (fun _ => (0 : Int))) [OpKind.pop] ∈ LPop := by
  decide

theorem LPop_never_done : ∀ s ∈ LPop, allDone s = false := by decide

end OrderedConc

/-- C2, counterexample.  `set` (and `clear`) only `await this.lock`; unlike
`push`/`pop` they never install themselves as the new lock, so an operation
issued after an unawaited `set` does not wait for it.  Concretely: on a
collection of length 1 (slot `0 ↦ 1`), issue `set(1, 99)` and then
`push(7)` without awaiting (both legal: `set` passes its `index > len`
check at index 1).  Executing the ops in issue order, each completing
before the next begins, ends with slot `1 ↦ 7` (the push reads length 1 and
overwrites slot 1).  But the machine admits a schedule — the `set`'s length
read resolving late, which nothing prevents — in which both calls complete
while the later-issued push's batch lands *before* the earlier set's write:
the final store has slot `1 ↦ 99`, so the operations did not execute in
issue order. -/
theorem C2_program_order_counterexample :
    (let s := OrderedConc.crun
        (OrderedConc.initC (OrderedSeq.mkStore 1 (fun _ => (1 : Int)))
          [OrderedConc.OpKind.set 1 99, OrderedConc.OpKind.push [7]])
        [0, 1, 1, 1, 0, 0]
     OrderedConc.allDone s = true ∧
       KV.kget s.store (OrderedSeq.OKey.slot 1) = some (Sum.inr 99)) ∧
    (match OrderedSeq.set (OrderedSeq.mkStore 1 (fun _ => (1 : Int))) 1 99 with
      | Except.ok st1 =>
        match OrderedSeq.push st1 [7] with
        | Except.ok st2 => KV.kget st2 (OrderedSeq.OKey.slot 1)
        | Except.error _ => none
      | Except.error _ => none) = some (Sum.inr 7) := by
  decide

/-- C2, amended (proved).  `push` and `pop` do execute in issue order — each
body is gated on the promise installed by the previous `push`/`pop`, which
resolves only after that call's atomic batch write — so for the claim's own
instance, three unawaited `push` calls with values 1, 2, 3 on a fresh
collection, *every* schedule of the machine in which all three calls
complete ends with `length() = 3` and `toArray() = [1, 2, 3]`.  (`set` and
`clear`, by contrast, never install themselves into the lock chain; the
counterexample shows the claim fails for them.) -/
theorem C2_program_order_amended (sched : List Nat)
    (hdone : OrderedConc.allDone (OrderedConc.crun
      (OrderedConc.initC OrderedConc.emptyStore OrderedConc.threePushes)
      sched) = true) :
    OrderedSeq.length (OrderedConc.crun
        (OrderedConc.initC OrderedConc.emptyStore OrderedConc.threePushes)
        sched).store = Except.ok 3 ∧
      OrderedSeq.toArray (OrderedConc.crun
        (OrderedConc.initC OrderedConc.emptyStore OrderedConc.threePushes)
        sched).store = Except.ok [1, 2, 3] :=
  OrderedConc.L3_final _
    (OrderedConc.L3_crun sched _ OrderedConc.init3_mem) hdone

/-- C2, witness for the amended theorem: a complete serializing schedule of
the three pushes. -/
theorem C2_program_order_amended_witness :
    OrderedSeq.length (OrderedConc.crun
        (OrderedConc.initC OrderedConc.emptyStore OrderedConc.threePushes)
        [0, 1, 2, 0, 0, 1, 1, 2, 2]).store = Except.ok 3 ∧
      OrderedSeq.toArray (OrderedConc.crun
        (OrderedConc.initC OrderedConc.emptyStore OrderedConc.threePushes)
        [0, 1, 2, 0, 0, 1, 1, 2, 2]).store = Except.ok [1, 2, 3] :=
  C2_program_order_amended [0, 1, 2, 0, 0, 1, 1, 2, 2] (by decide)

/-- C3 (code bug).  On a collection of length 0, `pop()` reads length 0 and
then performs the engine read of slot `-1`, which rejects with NotFound —
*inside* the `new Promise(async (resolve) => ...)` executor.  That rejection
is never caught: `resolve` is never called, so the promise `pop()` returned
(which is also the new `this.lock`) never settles, and the collection's
whole lock chain is blocked forever.  The claim (and the spec) say `pop()`
on an empty collection fails with OutOfBounds or an equivalent
empty-collection error; instead it hangs.  In the machine: for every
schedule, the pop task never completes. -/
theorem C3_pop_empty_never_completes (sched : List Nat) :
    OrderedConc.allDone (OrderedConc.crun
      (OrderedConc.initC (OrderedSeq.mkStore 0 (fun _ => (0 : Int)))
        [OrderedConc.OpKind.pop]) sched) = false :=
  OrderedConc.LPop_never_done _
    (OrderedConc.LPop_crun sched _ OrderedConc.initPop_mem)

namespace Reg

theorem registry_deliver {V : Type} (s : ObsReg V) (v : Option V) :
    (deliver s v).registry = s.registry := rfl

theorem kget_deliver_not_mem {V : Type} (l : List (Nat × Option V))
    (reg : List Nat) (i : Nat) (hi : i ∉ reg) (v : Option V) :
    KV.kget (l.map fun p => if p.1 ∈ reg then (p.1, v) else p) i
      = KV.kget l i := by
  induction l with
  | nil => rfl
  | cons p rest ih =>
    by_cases hp : p.1 ∈ reg
    · have hne : p.1 ≠ i := fun he => hi (he ▸ hp)
      simp [KV.kget, hp, hne, ih]
    · by_cases hq : p.1 = i
      · simp [KV.kget, hp, hq, hi]
      · simp [KV.kget, hp, hq, ih]

theorem deliverAll_registry {V : Type} (evs : List (Option V)) :
    ∀ s : ObsReg V, (deliverAll s evs).registry = s.registry := by
  induction evs with
  | nil => exact fun _ => rfl
  | cons e rest ih => exact fun s => ih (deliver s e)

theorem kget_deliverAll_not_mem {V : Type} (evs : List (Option V)) :
    ∀ s : ObsReg V, ∀ i : Nat, i ∉ s.registry →
      KV.kget (deliverAll s evs).lastSeen i = KV.kget s.lastSeen i := by
  induction evs with
  | nil => exact fun _ _ _ => rfl
  | cons e rest ih =>
    intro s i hi
    have h1 := ih (deliver s e) i (by rw [registry_deliver]; exact hi)
    rw [show deliverAll s (e :: rest) = deliverAll (deliver s e) rest from rfl,
      h1]
    exact kget_deliver_not_mem s.lastSeen s.registry i hi e

end Reg

/-- C7 (confirmed).  An observer whose id occurs (at most once, as a fresh
`DataSource` registered once does) in the registry is removed by the token's
cleanup (`indexOf` + `splice`); after that, (a) any further sequence of
change events to the observed key or collection leaves the observer's
last-seen value untouched, and (b) running the cleanup again — even after
those further events — is a no-op: it neither fails nor re-registers the
observer (the `indexOf` guard returns -1 and nothing is spliced). -/
theorem C7_cancellation_finality {V : Type} (s : Reg.ObsReg V) (i : Nat)
    (hc : s.registry.count i ≤ 1) (evs : List (Option V)) :
    KV.kget (Reg.deliverAll (Reg.cancelCleanup s i) evs).lastSeen i
        = KV.kget (Reg.cancelCleanup s i).lastSeen i ∧
      Reg.cancelCleanup (Reg.deliverAll (Reg.cancelCleanup s i) evs) i
        = Reg.deliverAll (Reg.cancelCleanup s i) evs := by
  have hni : i ∉ s.registry.erase i := by
    intro hmem
    have h1 : 0 < (s.registry.erase i).count i := List.count_pos_iff.mpr hmem
    rw [List.count_erase_self] at h1
    omega
  constructor
  · exact Reg.kget_deliverAll_not_mem evs (Reg.cancelCleanup s i) i hni
  · show { Reg.deliverAll (Reg.cancelCleanup s i) evs with
        registry := (Reg.deliverAll (Reg.cancelCleanup s i) evs).registry.erase i }
      = Reg.deliverAll (Reg.cancelCleanup s i) evs
    rw [show (Reg.deliverAll (Reg.cancelCleanup s i) evs).registry.erase i
          = (Reg.deliverAll (Reg.cancelCleanup s i) evs).registry from by
        rw [Reg.deliverAll_registry evs (Reg.cancelCleanup s i)]
        exact List.erase_of_not_mem hni]

/-- C7, witness: one registered observer (id 5) with no value seen; cancel,
deliver a further event, check the last-seen value is unchanged and a second
cleanup is the identity. -/
theorem C7_cancellation_finality_witness :
    KV.kget (Reg.deliverAll (Reg.cancelCleanup
          (⟨[5], [(5, none)]⟩ : Reg.ObsReg Int) 5) [some 3]).lastSeen 5
        = KV.kget (Reg.cancelCleanup
          (⟨[5], [(5, none)]⟩ : Reg.ObsReg Int) 5).lastSeen 5 ∧
      Reg.cancelCleanup (Reg.deliverAll (Reg.cancelCleanup
          (⟨[5], [(5, none)]⟩ : Reg.ObsReg Int) 5) [some 3]) 5
        = Reg.deliverAll (Reg.cancelCleanup
          (⟨[5], [(5, none)]⟩ : Reg.ObsReg Int) 5) [some 3] :=
  C7_cancellation_finality (⟨[5], [(5, none)]⟩ : Reg.ObsReg Int) 5
    (by decide) [some 3]

/-- C5 (confirmed).  `AurumDBIndex.clear` reads the partition's metadata
record, clears the whole partition, and rewrites the record: on any index
partition whose metadata record is present (as it is after `createIndex` and
any number of `set` calls), `clear` succeeds, the metadata record — and with
it the parent-level `hasIndex` check, which looks up exactly this record
under `makeSubDbId(name + 'index', META_KEY)` — survives, and every other
key (in particular every previously set key) is gone: `get` on it fails
with NotFound. -/
theorem C5_clear_preserves_existence {V : Type} (st : IndexOps.IStore V)
    (m : V) (hm : KV.kget st IndexOps.META = some m) :
    IndexOps.clear st
        = Except.ok (KV.kput ([] : IndexOps.IStore V) IndexOps.META m) ∧
      IndexOps.has (KV.kput ([] : IndexOps.IStore V) IndexOps.META m)
        IndexOps.META = true ∧
      ∀ k : String, k ≠ IndexOps.META →
        IndexOps.get (KV.kput ([] : IndexOps.IStore V) IndexOps.META m) k
          = Except.error IndexOps.DbErr.notFound := by
  refine ⟨by rw [IndexOps.clear, hm], ?_, fun k hk => ?_⟩
  · rw [IndexOps.has, KV.kget_kput_self]
    rfl
  · rw [IndexOps.get,
      show KV.kget (KV.kput ([] : IndexOps.IStore V) IndexOps.META m) k
          = none from by simp [KV.kput, KV.kget, Ne.symm hk]]

/-- C5, witness: partition with the metadata record and one data key `"a"`;
after `clear` the metadata record is still there and `"a"` is NotFound. -/
theorem C5_clear_preserves_existence_witness :
    IndexOps.clear [(IndexOps.META, (0 : Int)), ("a", 1)]
        = Except.ok (KV.kput ([] : IndexOps.IStore Int) IndexOps.META 0) ∧
      IndexOps.has (KV.kput ([] : IndexOps.IStore Int) IndexOps.META 0)
        IndexOps.META = true ∧
      IndexOps.get (KV.kput ([] : IndexOps.IStore Int) IndexOps.META 0) "a"
        = Except.error IndexOps.DbErr.notFound :=
  ⟨(C5_clear_preserves_existence [(IndexOps.META, (0 : Int)), ("a", 1)] 0
      (by decide)).1,
   (C5_clear_preserves_existence [(IndexOps.META, (0 : Int)), ("a", 1)] 0
      (by decide)).2.1,
   (C5_clear_preserves_existence [(IndexOps.META, (0 : Int)), ("a", 1)] 0
      (by decide)).2.2 "a" (by decide)⟩

namespace TopDB

/-- Two metadata keys for the same name but kind suffixes of different
lengths are distinct strings. -/
theorem makeSubDbId_ne (name s1 s2 : String) (h : s1.length ≠ s2.length) :
    makeSubDbId (name ++ s1) META ≠ makeSubDbId (name ++ s2) META := by
  intro he
  have hlen := congrArg String.length he
  simp only [makeSubDbId, String.length_append] at hlen
  omega

end TopDB

/-- C8 (confirmed).  The existence checks of the three collection kinds look
up `makeSubDbId(name + kind, META_KEY)` with kind suffixes "index",
"ordered", "linked", whose lengths (5, 7, 6) all differ, so for one name
the three metadata keys are distinct.  Hence for every database state in
which all three checks for `name` are false, creating a collection of one
kind makes exactly its own check true while the other two kinds' checks
stay false — for each of the three kinds. -/
theorem C8_existence_exclusivity {V : Type} (db : TopDB.TStore V)
    (name : String) (v : V)
    (hI : TopDB.hasIndex db name = false)
    (hO : TopDB.hasOrderedCollection db name = false)
    (hL : TopDB.hasLinkedCollection db name = false) :
    (TopDB.createIndex db name v = Except.ok
        (KV.kput db (TopDB.makeSubDbId (name ++ "index") TopDB.META) v) ∧
      TopDB.hasIndex
        (KV.kput db (TopDB.makeSubDbId (name ++ "index") TopDB.META) v)
        name = true ∧
      TopDB.hasOrderedCollection
        (KV.kput db (TopDB.makeSubDbId (name ++ "index") TopDB.META) v)
        name = false ∧
      TopDB.hasLinkedCollection
        (KV.kput db (TopDB.makeSubDbId (name ++ "index") TopDB.META) v)
        name = false) ∧
    (TopDB.createOrderedCollection db name v = Except.ok
        (KV.kput db (TopDB.makeSubDbId (name ++ "ordered") TopDB.META) v) ∧
      TopDB.hasOrderedCollection
        (KV.kput db (TopDB.makeSubDbId (name ++ "ordered") TopDB.META) v)
        name = true ∧
      TopDB.hasIndex
        (KV.kput db (TopDB.makeSubDbId (name ++ "ordered") TopDB.META) v)
        name = false ∧
      TopDB.hasLinkedCollection
        (KV.kput db (TopDB.makeSubDbId (name ++ "ordered") TopDB.META) v)
        name = false) ∧
    (TopDB.createLinkedCollection db name v = Except.ok
        (KV.kput db (TopDB.makeSubDbId (name ++ "linked") TopDB.META) v) ∧
      TopDB.hasLinkedCollection
        (KV.kput db (TopDB.makeSubDbId (name ++ "linked") TopDB.META) v)
        name = true ∧
      TopDB.hasIndex
        (KV.kput db (TopDB.makeSubDbId (name ++ "linked") TopDB.META) v)
        name = false ∧
      TopDB.hasOrderedCollection
        (KV.kput db (TopDB.makeSubDbId (name ++ "linked") TopDB.META) v)
        name = false) := by
  have hOI : TopDB.makeSubDbId (name ++ "ordered") TopDB.META
      ≠ TopDB.makeSubDbId (name ++ "index") TopDB.META :=
    TopDB.makeSubDbId_ne name "ordered" "index" (by decide)
  have hLI : TopDB.makeSubDbId (name ++ "linked") TopDB.META
      ≠ TopDB.makeSubDbId (name ++ "index") TopDB.META :=
    TopDB.makeSubDbId_ne name "linked" "index" (by decide)
  have hIO : TopDB.makeSubDbId (name ++ "index") TopDB.META
      ≠ TopDB.makeSubDbId (name ++ "ordered") TopDB.META :=
    TopDB.makeSubDbId_ne name "index" "ordered" (by decide)
  have hLO : TopDB.makeSubDbId (name ++ "linked") TopDB.META
      ≠ TopDB.makeSubDbId (name ++ "ordered") TopDB.META :=
    TopDB.makeSubDbId_ne name "linked" "ordered" (by decide)
  have hIL : TopDB.makeSubDbId (name ++ "index") TopDB.META
      ≠ TopDB.makeSubDbId (name ++ "linked") TopDB.META :=
    TopDB.makeSubDbId_ne name "index" "linked" (by decide)
  have hOL : TopDB.makeSubDbId (name ++ "ordered") TopDB.META
      ≠ TopDB.makeSubDbId (name ++ "linked") TopDB.META :=
    TopDB.makeSubDbId_ne name "ordered" "linked" (by decide)
  refine ⟨⟨?_, ?_, ?_, ?_⟩, ⟨?_, ?_, ?_, ?_⟩, ⟨?_, ?_, ?_, ?_⟩⟩
  · rw [TopDB.createIndex, if_neg (by rw [hI]; exact Bool.false_ne_true)]
  · rw [TopDB.hasIndex, TopDB.hasKey, KV.kget_kput_self]
    rfl
  · rw [TopDB.hasOrderedCollection, TopDB.hasKey,
      KV.kget_kput_ne _ _ _ _ hOI]
    exact hO
  · rw [TopDB.hasLinkedCollection, TopDB.hasKey,
      KV.kget_kput_ne _ _ _ _ hLI]
    exact hL
  · rw [TopDB.createOrderedCollection,
      if_neg (by rw [hO]; exact Bool.false_ne_true)]
  · rw [TopDB.hasOrderedCollection, TopDB.hasKey, KV.kget_kput_self]
    rfl
  · rw [TopDB.hasIndex, TopDB.hasKey, KV.kget_kput_ne _ _ _ _ hIO]
    exact hI
  · rw [TopDB.hasLinkedCollection, TopDB.hasKey,
      KV.kget_kput_ne _ _ _ _ hLO]
    exact hL
  · rw [TopDB.createLinkedCollection,
      if_neg (by rw [hL]; exact Bool.false_ne_true)]
  · rw [TopDB.hasLinkedCollection, TopDB.hasKey, KV.kget_kput_self]
    rfl
  · rw [TopDB.hasIndex, TopDB.hasKey, KV.kget_kput_ne _ _ _ _ hIL]
    exact hI
  · rw [TopDB.hasOrderedCollection, TopDB.hasKey,
      KV.kget_kput_ne _ _ _ _ hOL]
    exact hO

/-- C8, witness on the empty database with name `"t"`: creating an index
leaves the ordered and linked existence checks false. -/
theorem C8_existence_exclusivity_witness :
    TopDB.createIndex ([] : TopDB.TStore Int) "t" 0 = Except.ok
        (KV.kput ([] : TopDB.TStore Int)
          (TopDB.makeSubDbId ("t" ++ "index") TopDB.META) 0) ∧
      TopDB.hasIndex (KV.kput ([] : TopDB.TStore Int)
        (TopDB.makeSubDbId ("t" ++ "index") TopDB.META) 0) "t" = true ∧
      TopDB.hasOrderedCollection (KV.kput ([] : TopDB.TStore Int)
        (TopDB.makeSubDbId ("t" ++ "index") TopDB.META) 0) "t" = false ∧
      TopDB.hasLinkedCollection (KV.kput ([] : TopDB.TStore Int)
        (TopDB.makeSubDbId ("t" ++ "index") TopDB.META) 0) "t" = false :=
  (C8_existence_exclusivity ([] : TopDB.TStore Int) "t" 0
    (by decide) (by decide) (by decide)).1
